import Mathlib

/-!
A shallow embedding of the `bwtree-rs` crate (files `src/lib.rs` and
`src/linked_list.rs`) and proofs about it.

The Rust code is concurrent; the claims below are about sequential executions,
so the embedding is a functional state-passing model.  Where a claim is about
the outcome of a CAS race, the CAS outcome is an explicit parameter of the
model (a sequential execution always takes the successful outcome).  A Rust
panic (a failed `assert!` or a `todo!()`) is modelled by `RustResult.panicked`.
-/

set_option autoImplicit false

/-- Result of running a piece of Rust code that may panic: either a normal
value or a panic (`assert!` failure or `todo!()`). -/
inductive RustResult (α : Type) where
  | ok (val : α)
  | panicked
  deriving DecidableEq

/-- The `KeyType` trait from `lib.rs`: an ordered key type with a minimum
value (`const MINIMUM`). -/
class KeyType (K : Type) extends LinearOrder K where
  MINIMUM : K

/-- The crate implements `KeyType` for `u64` with `MINIMUM = u64::MIN = 0`.
The library does no key arithmetic, so `Nat` (ordered, minimum `0`) embeds the
`u64` key type faithfully for the operations the code performs. -/
instance : KeyType Nat where
  MINIMUM := 0

/-- The lock-free singly-linked list of `linked_list.rs`, sequentially: the
sequence of values from the head toward the tail. -/
structure LinkedList (α : Type) where
  toList : List α
  deriving DecidableEq

/-- `LinkedList::new`: the empty list (null head). -/
def LinkedList.new {α : Type} : LinkedList α :=
  ⟨[]⟩

/-- `LinkedList::push_front`: links a fresh node holding `value` in front of
the current head and installs it as the new head (the CAS retry loop always
succeeds in a sequential execution). -/
def LinkedList.push_front {α : Type} (l : LinkedList α) (value : α) : LinkedList α :=
  ⟨value :: l.toList⟩

/-- `LinkedList::iter`: the sequence of elements the iterator yields, from the
head at the moment `iter` is called toward the tail. -/
def LinkedList.iter {α : Type} (l : LinkedList α) : List α :=
  l.toList

/-- A sequential run of `push_front` calls, one per element of `vs` in order. -/
def LinkedList.pushAll {α : Type} (l : LinkedList α) (vs : List α) : LinkedList α :=
  vs.foldl LinkedList.push_front l

/-- The `DeltaRecord` enum: currently only `Insert(key, value)`. -/
inductive DeltaRecord (K V : Type) where
  | Insert (key : K) (value : V)
  deriving DecidableEq

/-- The `DeltaNode` struct: a chain of delta records on a lock-free list. -/
structure DeltaNode (K V : Type) where
  records : LinkedList (DeltaRecord K V)
  deriving DecidableEq

/-- `DeltaNode::new`: an empty chain. -/
def DeltaNode.new {K V : Type} : DeltaNode K V :=
  ⟨LinkedList.new⟩

/-- `DeltaNode::insert`: prepends an `Insert(key, value)` record to the chain. -/
def DeltaNode.insert {K V : Type} (d : DeltaNode K V) (key : K) (value : V) :
    DeltaNode K V :=
  ⟨d.records.push_front (DeltaRecord.Insert key value)⟩

/-- The scan inside `DeltaNode::get`: walk the records in iteration order and
return the value of the first `Insert` record whose key equals `key`. -/
def getChain {K V : Type} [DecidableEq K] : List (DeltaRecord K V) → K → Option V
  | [], _ => none
  | DeltaRecord.Insert k v :: rest, key => if key = k then some v else getChain rest key

/-- `DeltaNode::get`: scans the chain from the most recently prepended record
toward the oldest. -/
def DeltaNode.get {K V : Type} [KeyType K] (d : DeltaNode K V) (key : K) : Option V :=
  getChain d.records.iter key

/-- The `InnerNode` struct: parallel vectors of separator keys and child ids. -/
structure InnerNode (K : Type) where
  keys : List K
  children : List Nat
  deriving DecidableEq

/-- `InnerNode::new`: empty key and child vectors. -/
def InnerNode.new {K : Type} : InnerNode K :=
  ⟨[], []⟩

/-- `InnerNode::insert`: pushes `(key, node_id)` onto the parallel vectors. -/
def InnerNode.insert {K : Type} (n : InnerNode K) (key : K) (node_id : Nat) : InnerNode K :=
  ⟨n.keys ++ [key], n.children ++ [node_id]⟩

/-- The `LeafNode` struct: `count` sorted entries in parallel vectors. -/
structure LeafNode (K V : Type) where
  count : Nat
  keys : List K
  values : List V
  deriving DecidableEq

/-- `LeafNode::new`: zero entries, empty vectors. -/
def LeafNode.new {K V : Type} : LeafNode K V :=
  ⟨0, [], []⟩

/-- The loop body of `LeafNode::get` over the index list `0, 1, ..., count-1`:
an out-of-bounds vector index is a Rust panic. -/
def LeafNode.getLoop {K V : Type} [DecidableEq K] (n : LeafNode K V) (key : K) :
    List Nat → RustResult (Option V)
  | [] => .ok none
  | i :: rest =>
    match n.keys[i]? with
    | none => .panicked
    | some k =>
      if key = k then
        match n.values[i]? with
        | none => .panicked
        | some v => .ok (some v)
      else n.getLoop key rest

/-- `LeafNode::get`: linear scan over the first `count` entries for an exact
key match. -/
def LeafNode.get {K V : Type} [DecidableEq K] (n : LeafNode K V) (key : K) :
    RustResult (Option V) :=
  n.getLoop key (List.range n.count)

/-- The `Node` enum: the three node variants. -/
inductive Node (K V : Type) where
  | Inner (node : InnerNode K)
  | Delta (node : DeltaNode K V)
  | Leaf (node : LeafNode K V)
  deriving DecidableEq

/-- `Node::get`: the `Inner` arm is `todo!()`, a panic. -/
def Node.get {K V : Type} [KeyType K] (n : Node K V) (key : K) : RustResult (Option V) :=
  match n with
  | Node.Inner _ => .panicked
  | Node.Delta node => .ok (node.get key)
  | Node.Leaf node => node.get key

/-- The `MAPPING_TABLE_SIZE` constant: `1 << 20`. -/
def MAPPING_TABLE_SIZE : Nat := 1 <<< 20

/-- Sequential view of the mapping table: which node (if any) each slot
currently resolves to (`none` = null slot, never installed). -/
def MappingTable (K V : Type) : Type :=
  Nat → Option (Node K V)

/-- Pointwise slot update of a mapping table. -/
def updateTable {K V : Type} (mt : MappingTable K V) (id : Nat) (n : Node K V) :
    MappingTable K V :=
  fun j => if j = id then some n else mt j

/-- `MappingTable::get`: asserts `id < MAPPING_TABLE_SIZE`, loads the slot and
asserts it is non-null; either failed assertion is a panic. -/
def MappingTable.get {K V : Type} (mt : MappingTable K V) (id : Nat) :
    RustResult (Node K V) :=
  if id < MAPPING_TABLE_SIZE then
    match mt id with
    | some n => .ok n
    | none => .panicked
  else .panicked

/-- `MappingTable::insert` at the slot-content level: asserts the bound, then
attempts a CAS of the slot from its just-loaded value to the new node.
`casSucceeds` is the outcome of the CAS (`true` in any sequential execution;
`false` only when a concurrent racer changed the slot in between).  On failure
the slot keeps its pointer and `false` is returned.  The memory-level effect of
the failure arm (what happens to the boxed nodes) is modelled separately by
`MappingTableMem.insert` below, where it matters. -/
def MappingTable.insertModel {K V : Type} (mt : MappingTable K V) (id : Nat)
    (node : Node K V) (casSucceeds : Bool) :
    RustResult (MappingTable K V × Bool) :=
  if id < MAPPING_TABLE_SIZE then
    if casSucceeds then .ok (updateTable mt id node, true)
    else .ok (mt, false)
  else .panicked

/-- The `BwTree` struct, sequentially: the root id, the mapping table and the
next-unused-id counter. -/
structure BwTree (K V : Type) where
  root_id : Nat
  mapping_table : MappingTable K V
  next_unused_node_id : Nat

/-- The `FIRST_LEAF_NODE_ID` constant. -/
def FIRST_LEAF_NODE_ID : Nat := 2

/-- `BwTree::new`: allocates ids 1 (root) and 2 (first leaf), builds a root
`InnerNode` whose single routing entry maps `KeyType::MINIMUM` to the leaf id,
and installs the root and an empty leaf into the mapping table. -/
def BwTree.new (K V : Type) [KeyType K] : BwTree K V :=
  let root_id := 1
  let first_leaf_id := FIRST_LEAF_NODE_ID
  let left_most_leaf : Node K V := Node.Leaf LeafNode.new
  let root := InnerNode.new.insert KeyType.MINIMUM first_leaf_id
  ⟨root_id,
   updateTable (updateTable (fun _ => none) root_id (Node.Inner root))
     first_leaf_id left_most_leaf,
   3⟩

/-- `BwTree::insert`: resolves the root through the mapping table; on an
`Inner` root builds a fresh delta pre-populated with this insert and
CAS-installs it over the root slot (the CAS outcome is the `casSucceeds`
parameter; the returned flag of `MappingTable::insert` is ignored by the
code); on a `Delta` root prepends to its chain; the `Leaf` arm is `todo!()`.
Returns the updated tree and the returned boolean. -/
def BwTree.insertResult {K V : Type} [KeyType K] (t : BwTree K V) (key : K) (value : V)
    (casSucceeds : Bool) : RustResult (BwTree K V × Bool) :=
  match t.mapping_table.get t.root_id with
  | .panicked => .panicked
  | .ok (Node.Inner _) =>
    match t.mapping_table.insertModel t.root_id
        (Node.Delta (DeltaNode.new.insert key value)) casSucceeds with
    | .panicked => .panicked
    | .ok (mt, _) => .ok (⟨t.root_id, mt, t.next_unused_node_id⟩, true)
  | .ok (Node.Delta delta) =>
    .ok (⟨t.root_id,
          updateTable t.mapping_table t.root_id (Node.Delta (delta.insert key value)),
          t.next_unused_node_id⟩, true)
  | .ok (Node.Leaf _) => .panicked

/-- `BwTree::get`: resolves the root and delegates to `Node::get`. -/
def BwTree.get {K V : Type} [KeyType K] (t : BwTree K V) (key : K) :
    RustResult (Option V) :=
  match t.mapping_table.get t.root_id with
  | .panicked => .panicked
  | .ok root => root.get key

/-- A sequential run of `BwTree::insert` calls, one per `(key, value)` pair of
`kvs` in order; every CAS succeeds (no concurrent interference). -/
def BwTree.insertAll {K V : Type} [KeyType K] :
    BwTree K V → List (K × V) → RustResult (BwTree K V)
  | t, [] => .ok t
  | t, (k, v) :: rest =>
    match t.insertResult k v true with
    | .panicked => .panicked
    | .ok (t1, _) => t1.insertAll rest

/-- Memory-explicit model of the mapping table for reasoning about what the
CAS-failure arm of `MappingTable::insert` does to the boxed nodes: `slots`
holds the raw pointer (a heap address, `none` = null) stored in each
`AtomicPtr` slot, `heap` holds the currently allocated boxes, and `nextAddr`
is the next fresh address handed out by the allocator. -/
structure MappingTableMem (K V : Type) where
  slots : Nat → Option Nat
  heap : Nat → Option (Node K V)
  nextAddr : Nat

/-- `MappingTable::insert`, memory-explicitly.  The code asserts the bound,
loads the slot (`old`), leaks a fresh box holding `node` (`Box::leak`), and
attempts `compare_exchange(old, new)`.  `slotAtCas` is the pointer actually in
the slot at CAS time: it equals `old` unless a concurrent racer changed the
slot after the load.  On success the slot now holds the fresh box.  On failure
`compare_exchange` returns `Err` carrying the CURRENT slot pointer, which the
code binds to the shadowing name `new` and feeds to
`std::mem::drop(Box::from(new))`.  This is safe code, so `Box::from` here is
the blanket `From<T> for Box<T>` impl applied at `T = *mut Node<K, V>`: it
allocates a transient box CONTAINING the raw pointer value and `drop` frees
only that transient box, never the node it points to.  (Modelling note: the
transient `Box<*mut Node>` holds no node and is gone by the end of the call,
so it does not appear in `heap`, which tracks node boxes only.)  Net effect of
the failure arm: the slot keeps the pointer the racer installed, every node
box is left intact, and the leaked candidate box stays allocated with no
pointer to it retained anywhere — it is leaked, not discarded. -/
def MappingTableMem.insert {K V : Type} (st : MappingTableMem K V) (id : Nat)
    (node : Node K V) (slotAtCas : Option Nat) :
    RustResult (MappingTableMem K V × Bool) :=
  if id < MAPPING_TABLE_SIZE then
    let old := st.slots id
    let newAddr := st.nextAddr
    let heapAfterLeak : Nat → Option (Node K V) :=
      fun a => if a = newAddr then some node else st.heap a
    if slotAtCas = old then
      .ok (⟨fun j => if j = id then some newAddr else st.slots j,
            heapAfterLeak, st.nextAddr + 1⟩, true)
    else
      .ok (⟨fun j => if j = id then slotAtCas else st.slots j,
            heapAfterLeak, st.nextAddr + 1⟩, false)
  else .panicked

/-- The delta node obtained by inserting the pairs of `kvs` in order, starting
from an empty chain: the records, head first, are `kvs` reversed. -/
def deltaOf {K V : Type} (kvs : List (K × V)) : DeltaNode K V :=
  ⟨⟨kvs.reverse.map fun p => DeltaRecord.Insert p.1 p.2⟩⟩

/-- Sequentially folding `DeltaNode::insert` over a list of pairs. -/
def DeltaNode.insertAll {K V : Type} (d : DeltaNode K V) (kvs : List (K × V)) :
    DeltaNode K V :=
  kvs.foldl (fun acc p => acc.insert p.1 p.2) d

/-- The tree state after a sequential run of inserts on a fresh tree: the
root slot holds the bootstrap Inner node while no insert has happened, and a
delta node carrying all the inserts afterwards. -/
def BwTree.afterInserts {K V : Type} [KeyType K] : List (K × V) → BwTree K V
  | [] => BwTree.new K V
  | (k, v) :: rest =>
    ⟨1,
     updateTable (BwTree.new K V).mapping_table 1 (Node.Delta (deltaOf ((k, v) :: rest))),
     3⟩

theorem deltaNode_insertAll_toList {K V : Type} (kvs : List (K × V)) (d : DeltaNode K V) :
    (d.insertAll kvs).records.toList =
      (kvs.reverse.map fun p => DeltaRecord.Insert p.1 p.2) ++ d.records.toList := by
  induction kvs generalizing d with
  | nil => simp [DeltaNode.insertAll]
  | cons p rest ih =>
    have h := ih (d.insert p.1 p.2)
    simp only [DeltaNode.insertAll, List.foldl_cons] at h ⊢
    rw [h]
    simp [DeltaNode.insert, LinkedList.push_front]

theorem deltaNode_eq_of_toList {K V : Type} {d1 d2 : DeltaNode K V}
    (h : d1.records.toList = d2.records.toList) : d1 = d2 := by
  obtain ⟨⟨l1⟩⟩ := d1
  obtain ⟨⟨l2⟩⟩ := d2
  cases h
  rfl

theorem updateTable_updateTable {K V : Type} (mt : MappingTable K V) (id : Nat)
    (x y : Node K V) : updateTable (updateTable mt id x) id y = updateTable mt id y := by
  funext j
  by_cases hj : j = id <;> simp [updateTable, hj]

theorem updateTable_eq_self {K V : Type} (mt : MappingTable K V) (id : Nat)
    (n : Node K V) (h : mt id = some n) : updateTable mt id n = mt := by
  funext j
  by_cases hj : j = id <;> simp [updateTable, hj, h.symm]

theorem bwTree_insertResult_delta {K V : Type} [KeyType K] (mt : MappingTable K V)
    (nid : Nat) (d : DeltaNode K V) (k : K) (v : V) (cas : Bool)
    (h : mt 1 = some (Node.Delta d)) :
    BwTree.insertResult ⟨1, mt, nid⟩ k v cas =
      .ok (⟨1, updateTable mt 1 (Node.Delta (d.insert k v)), nid⟩, true) := by
  have h1 : (1 : Nat) < MAPPING_TABLE_SIZE := by decide
  simp [BwTree.insertResult, MappingTable.get, h1, h]

theorem bwTree_insertResult_inner {K V : Type} [KeyType K] (mt : MappingTable K V)
    (nid : Nat) (inner : InnerNode K) (k : K) (v : V) (cas : Bool)
    (h : mt 1 = some (Node.Inner inner)) :
    BwTree.insertResult ⟨1, mt, nid⟩ k v cas =
      .ok (⟨1,
            if cas then updateTable mt 1 (Node.Delta (DeltaNode.new.insert k v)) else mt,
            nid⟩, true) := by
  have h1 : (1 : Nat) < MAPPING_TABLE_SIZE := by decide
  cases cas <;>
    simp [BwTree.insertResult, MappingTable.get, MappingTable.insertModel, h1, h]

theorem bwTree_insertAll_delta {K V : Type} [KeyType K] (kvs : List (K × V))
    (mt : MappingTable K V) (d : DeltaNode K V) (nid : Nat)
    (h : mt 1 = some (Node.Delta d)) :
    BwTree.insertAll ⟨1, mt, nid⟩ kvs =
      .ok ⟨1, updateTable mt 1 (Node.Delta (d.insertAll kvs)), nid⟩ := by
  induction kvs generalizing mt d with
  | nil =>
    simp only [BwTree.insertAll, DeltaNode.insertAll, List.foldl_nil]
    rw [updateTable_eq_self mt 1 (Node.Delta d) h]
  | cons p rest ih =>
    obtain ⟨k, v⟩ := p
    simp only [BwTree.insertAll]
    rw [bwTree_insertResult_delta mt nid d k v true h]
    have hup : updateTable mt 1 (Node.Delta (d.insert k v)) 1 =
        some (Node.Delta (d.insert k v)) := by simp [updateTable]
    show BwTree.insertAll ⟨1, updateTable mt 1 (Node.Delta (d.insert k v)), nid⟩ rest = _
    rw [ih (updateTable mt 1 (Node.Delta (d.insert k v))) (d.insert k v) hup,
      updateTable_updateTable]
    rfl

theorem bwTree_insertAll_new {K V : Type} [KeyType K] (kvs : List (K × V)) :
    BwTree.insertAll (BwTree.new K V) kvs = .ok (BwTree.afterInserts kvs) := by
  cases kvs with
  | nil => rfl
  | cons p rest =>
    obtain ⟨k, v⟩ := p
    have hroot : (BwTree.new K V).mapping_table 1 =
        some (Node.Inner (InnerNode.new.insert KeyType.MINIMUM FIRST_LEAF_NODE_ID)) := rfl
    show BwTree.insertAll ⟨1, (BwTree.new K V).mapping_table, 3⟩ ((k, v) :: rest) = _
    simp only [BwTree.insertAll]
    rw [bwTree_insertResult_inner (BwTree.new K V).mapping_table 3 _ k v true hroot]
    simp only [if_true]
    have hup : updateTable (BwTree.new K V).mapping_table 1
        (Node.Delta (DeltaNode.new.insert k v)) 1 =
        some (Node.Delta (DeltaNode.new.insert k v)) := by simp [updateTable]
    rw [bwTree_insertAll_delta rest _ _ 3 hup, updateTable_updateTable]
    have hdelta : (DeltaNode.new.insert k v).insertAll rest = deltaOf ((k, v) :: rest) := by
      apply deltaNode_eq_of_toList
      rw [deltaNode_insertAll_toList]
      simp [DeltaNode.new, DeltaNode.insert, LinkedList.new, LinkedList.push_front, deltaOf]
    rw [hdelta]
    rfl

theorem getChain_map_none {K V : Type} [DecidableEq K] (l : List (K × V)) (key : K)
    (h : ∀ p ∈ l, key ≠ p.1) :
    getChain (l.map fun p => DeltaRecord.Insert p.1 p.2) key = none := by
  induction l with
  | nil => rfl
  | cons p rest ih =>
    have hp : key ≠ p.1 := h p (List.mem_cons_self p rest)
    simp only [List.map_cons, getChain, hp, if_false]
    exact ih fun q hq => h q (List.mem_cons_of_mem p hq)

theorem getChain_append_of_none {K V : Type} [DecidableEq K]
    (l1 l2 : List (DeltaRecord K V)) (key : K) (h : getChain l1 key = none) :
    getChain (l1 ++ l2) key = getChain l2 key := by
  induction l1 with
  | nil => rfl
  | cons r rest ih =>
    obtain ⟨k, v⟩ := r
    by_cases hk : key = k
    · simp [getChain, hk] at h
    · simp only [List.cons_append, getChain, hk, if_false] at h ⊢
      exact ih h

theorem getChain_last_insert {K V : Type} [DecidableEq K] (l1 l2 : List (K × V))
    (k : K) (v : V) (h : ∀ p ∈ l2, k ≠ p.1) :
    getChain (((l1 ++ (k, v) :: l2).reverse).map fun p => DeltaRecord.Insert p.1 p.2) k =
      some v := by
  rw [List.reverse_append, List.reverse_cons, List.map_append, List.map_append,
    List.append_assoc]
  rw [getChain_append_of_none _ _ k
    (getChain_map_none l2.reverse k fun p hp => h p (List.mem_reverse.mp hp))]
  simp [getChain]

theorem bwTree_get_afterInserts {K V : Type} [KeyType K] (k : K) (v : V)
    (rest : List (K × V)) (key : K) :
    (BwTree.afterInserts ((k, v) :: rest)).get key =
      .ok (getChain (((k, v) :: rest).reverse.map fun p => DeltaRecord.Insert p.1 p.2) key) := by
  have h1 : (1 : Nat) < MAPPING_TABLE_SIZE := by decide
  simp [BwTree.afterInserts, BwTree.get, MappingTable.get, updateTable, h1, Node.get,
    DeltaNode.get, deltaOf, LinkedList.iter]

theorem bwTree_get_afterInserts_ne {K V : Type} [KeyType K] (kvs : List (K × V))
    (hne : kvs ≠ []) (key : K) :
    (BwTree.afterInserts kvs).get key =
      .ok (getChain (kvs.reverse.map fun p => DeltaRecord.Insert p.1 p.2) key) := by
  cases kvs with
  | nil => exact absurd rfl hne
  | cons p rest =>
    obtain ⟨k, v⟩ := p
    exact bwTree_get_afterInserts k v rest key

theorem linkedList_pushAll_toList {α : Type} (vs : List α) (l : LinkedList α) :
    (l.pushAll vs).toList = vs.reverse ++ l.toList := by
  induction vs generalizing l with
  | nil => simp [LinkedList.pushAll]
  | cons v rest ih =>
    have h := ih (l.push_front v)
    simp only [LinkedList.pushAll, List.foldl_cons] at h ⊢
    rw [h]
    simp [LinkedList.push_front]

/-- C8: a sequential run of `push_front` calls for `v1, ..., vn` on a fresh
`LinkedList`, followed by `iter()`, yields exactly `vn, vn-1, ..., v1` — the
elements in reverse insertion order, head toward tail — and nothing else: no
pushed element is lost and none is removed. -/
theorem linkedList_iter_after_pushes {α : Type} (vs : List α) :
    (LinkedList.pushAll LinkedList.new vs).iter = vs.reverse := by
  rw [LinkedList.iter, linkedList_pushAll_toList]
  simp [LinkedList.new]

/-- C6: immediately after `BwTree::new()`, the mapping-table slot at the root
id (1) holds an Inner node with exactly one routing entry — key
`KeyType::MINIMUM`, child id `FIRST_LEAF_NODE_ID` — and slot
`FIRST_LEAF_NODE_ID` (= 2, the first allocated leaf id) holds an empty Leaf
node. -/
theorem bwTree_new_bootstrap (K V : Type) [KeyType K] :
    (BwTree.new K V).root_id = 1 ∧
    (BwTree.new K V).mapping_table 1 =
      some (Node.Inner ⟨[KeyType.MINIMUM], [FIRST_LEAF_NODE_ID]⟩) ∧
    (BwTree.new K V).mapping_table FIRST_LEAF_NODE_ID =
      some (Node.Leaf ⟨0, [], []⟩) ∧
    FIRST_LEAF_NODE_ID = 2 :=
  ⟨rfl, rfl, rfl, rfl⟩

/-- C7: `MappingTable::get(id)` returns the installed node when `id` is within
the fixed capacity and the slot has been installed; an out-of-range `id` or a
never-installed slot is a fatal assertion failure (a panic), not a recoverable
result. -/
theorem mappingTable_get_spec {K V : Type} (mt : MappingTable K V) (id : Nat) :
    (∀ n, id < MAPPING_TABLE_SIZE → mt id = some n → mt.get id = .ok n) ∧
    (MAPPING_TABLE_SIZE ≤ id → mt.get id = .panicked) ∧
    (id < MAPPING_TABLE_SIZE → mt id = none → mt.get id = .panicked) := by
  refine ⟨?_, ?_, ?_⟩
  · intro n hlt hsome
    simp [MappingTable.get, hlt, hsome]
  · intro hge
    simp [MappingTable.get, Nat.not_lt.mpr hge]
  · intro hlt hnone
    simp [MappingTable.get, hlt, hnone]

/-- Witness for C7 at a concrete table: slot 1 installed, within bounds. -/
theorem mappingTable_get_spec_witness :
    MappingTable.get
      (fun j => if j = 1 then some (Node.Leaf (LeafNode.new : LeafNode Nat Nat)) else none)
      1 = .ok (Node.Leaf LeafNode.new) :=
  (mappingTable_get_spec
    (fun j => if j = 1 then some (Node.Leaf (LeafNode.new : LeafNode Nat Nat)) else none)
    1).1 (Node.Leaf LeafNode.new) (by decide) rfl

/-- A node sitting at heap address 0 in the scenario below. -/
def nodeAtAddr0 : Node Nat Nat :=
  Node.Leaf LeafNode.new

/-- The node a concurrent racer installs (at heap address 1) between the load
and the CAS in the scenario below. -/
def nodeAtAddr1 : Node Nat Nat :=
  Node.Delta DeltaNode.new

/-- The caller-constructed candidate node in the scenario below. -/
def candidateNode : Node Nat Nat :=
  Node.Delta (DeltaNode.new.insert 7 7)

/-- A mapping-table memory state in which slot 5 points at address 0 and the
heap holds the boxes at addresses 0 and 1; address 1 was just installed into
slot 5 by a concurrent racer, so the upcoming CAS against the stale load
fails. -/
def memBefore : MappingTableMem Nat Nat :=
  ⟨fun j => if j = 5 then some 0 else none,
   fun a => if a = 0 then some nodeAtAddr0 else if a = 1 then some nodeAtAddr1 else none,
   2⟩

/-- C5 (bug evaluation): on CAS failure, `MappingTable::insert` does return
`false`, and the node currently installed in the slot is left unchanged and
intact — but the caller-constructed candidate is NOT the object that gets
discarded.  `compare_exchange` hands back the current slot pointer in its
`Err`, and `std::mem::drop(Box::from(new))` on that raw pointer (safe code,
so the blanket `From<T> for Box<T>` impl) drops only a transient box holding
the pointer value, freeing no node.  The candidate box, leaked by
`Box::leak` before the CAS, remains allocated (address 2) with no slot or
live binding referring to it: it is leaked, never discarded. -/
theorem mappingTableMem_insert_cas_failure_leaks_candidate :
    ∃ st', memBefore.insert 5 candidateNode (some 1) = .ok (st', false) ∧
      st'.slots 5 = some 1 ∧
      st'.heap 1 = some nodeAtAddr1 ∧
      st'.heap 0 = some nodeAtAddr0 ∧
      st'.heap 2 = some candidateNode ∧
      (∀ j, st'.slots j ≠ some 2) := by
  refine ⟨_, rfl, rfl, rfl, rfl, rfl, ?_⟩
  intro j
  by_cases hj : j = 5 <;> simp [MappingTableMem.insert, memBefore, hj]

theorem getChain_cons {K V : Type} [DecidableEq K] (k : K) (v : V)
    (rest : List (DeltaRecord K V)) (key : K) :
    getChain (DeltaRecord.Insert k v :: rest) key =
      if key = k then some v else getChain rest key := rfl

/-- C1: after any sequence of inserts with pairwise distinct keys on a fresh
tree, `get` on each inserted key returns `Some` of the value inserted for it. -/
theorem bwTree_insert_get_roundtrip {K V : Type} [KeyType K] (kvs : List (K × V))
    (k : K) (v : V) (hnodup : (kvs.map Prod.fst).Nodup) (hmem : (k, v) ∈ kvs) :
    ∃ t, BwTree.insertAll (BwTree.new K V) kvs = .ok t ∧ t.get k = .ok (some v) := by
  obtain ⟨l1, l2, rfl⟩ := List.append_of_mem hmem
  refine ⟨_, bwTree_insertAll_new _, ?_⟩
  rw [bwTree_get_afterInserts_ne _ (by simp) k]
  rw [List.map_append, List.map_cons] at hnodup
  have hk2 : (k, v).1 ∉ l2.map Prod.fst := (List.nodup_cons.mp hnodup.of_append_right).1
  have habs : ∀ p ∈ l2, k ≠ p.1 := by
    intro p hp heq
    exact hk2 (List.mem_map.mpr ⟨p, hp, heq.symm⟩)
  rw [getChain_last_insert l1 l2 k v habs]

/-- Witness for C1: one insert of (3, 7), then get 3. -/
theorem bwTree_insert_get_roundtrip_witness :
    ∃ t, BwTree.insertAll (BwTree.new Nat Nat) [(3, 7)] = .ok t ∧
      t.get 3 = .ok (some 7) :=
  bwTree_insert_get_roundtrip [(3, 7)] 3 7 (by decide) (by decide)

/-- C2: if key `k` is inserted with value `v1` and later re-inserted with
value `v2`, other inserts interleaved arbitrarily and `v2` being the latest
insert for `k`, then `get k` returns `Some v2` and never `Some v1`; this is
exactly the most-recently-prepended-record-wins scan of the delta chain. -/
theorem bwTree_overwrite_precedence {K V : Type} [KeyType K] (l1 mid l2 : List (K × V))
    (k : K) (v1 v2 : V) (hlast : ∀ w : V, (k, w) ∉ l2) :
    ∃ t, BwTree.insertAll (BwTree.new K V)
        (l1 ++ (k, v1) :: (mid ++ (k, v2) :: l2)) = .ok t ∧
      t.get k = .ok (some v2) ∧ (v1 ≠ v2 → t.get k ≠ .ok (some v1)) := by
  have hshape : l1 ++ (k, v1) :: (mid ++ (k, v2) :: l2) =
      (l1 ++ (k, v1) :: mid) ++ (k, v2) :: l2 := by
    simp [List.append_assoc]
  have habs : ∀ p ∈ l2, k ≠ p.1 := by
    intro p hp heq
    exact hlast p.2 (by rw [heq, Prod.mk.eta]; exact hp)
  have hget : (BwTree.afterInserts (l1 ++ (k, v1) :: (mid ++ (k, v2) :: l2))).get k =
      .ok (some v2) := by
    rw [bwTree_get_afterInserts_ne _ (by simp) k, hshape,
      getChain_last_insert (l1 ++ (k, v1) :: mid) l2 k v2 habs]
  refine ⟨_, bwTree_insertAll_new _, hget, ?_⟩
  intro hv hc
  rw [hget] at hc
  exact hv (Option.some.inj (RustResult.ok.inj hc)).symm

/-- Witness for C2: insert (1, 10) then (1, 20); get 1 gives 20, not 10. -/
theorem bwTree_overwrite_precedence_witness :
    ∃ t, BwTree.insertAll (BwTree.new Nat Nat)
        ([] ++ (1, 10) :: ([] ++ (1, 20) :: [])) = .ok t ∧
      t.get 1 = .ok (some 20) ∧ ((10 : Nat) ≠ 20 → t.get 1 ≠ .ok (some 10)) :=
  bwTree_overwrite_precedence [] [] [] 1 10 20 (fun w => List.not_mem_nil (1, w))

/-- C3 counterexample: on a freshly constructed tree with the empty sequence
of inserts, `get` of a never-inserted key does not return `None` — it panics,
because the root still holds an Inner node and `Node::get` on Inner is
`todo!()`. -/
theorem bwTree_get_on_fresh_tree_panics :
    (BwTree.new Nat Nat).get 0 = RustResult.panicked ∧
    (BwTree.new Nat Nat).get 0 ≠ RustResult.ok none := by
  refine ⟨rfl, ?_⟩
  intro h
  rw [show (BwTree.new Nat Nat).get 0 = RustResult.panicked from rfl] at h
  exact RustResult.noConfusion h

/-- C3 amended: after every NONEMPTY sequence of inserts on a fresh tree,
`get` of a key that appears in none of the inserts returns `None` (no value)
rather than failing; on the empty sequence `get` panics instead (`todo!()` on
the Inner root). -/
theorem bwTree_get_absent_none {K V : Type} [KeyType K] (kvs : List (K × V)) (k : K)
    (hne : kvs ≠ []) (habs : ∀ p ∈ kvs, k ≠ p.1) :
    ∃ t, BwTree.insertAll (BwTree.new K V) kvs = .ok t ∧ t.get k = .ok none := by
  refine ⟨_, bwTree_insertAll_new _, ?_⟩
  rw [bwTree_get_afterInserts_ne _ hne k,
    getChain_map_none kvs.reverse k fun p hp => habs p (List.mem_reverse.mp hp)]

/-- Witness for the amended C3: insert (1, 5), then get 0. -/
theorem bwTree_get_absent_none_witness :
    ∃ t, BwTree.insertAll (BwTree.new Nat Nat) [(1, 5)] = .ok t ∧ t.get 0 = .ok none :=
  bwTree_get_absent_none [(1, 5)] 0 (by decide) (by decide)

/-- C4: on every tree state reachable by a sequence of inserts from a fresh
tree, `BwTree::insert` returns `true` for every key and value — whatever the
outcome of the internal mapping-table CAS (a failed CAS is neither retried
nor reported). -/
theorem bwTree_insert_always_true {K V : Type} [KeyType K] (kvs : List (K × V))
    (t : BwTree K V) (key : K) (value : V) (cas : Bool)
    (h : BwTree.insertAll (BwTree.new K V) kvs = .ok t) :
    ∃ t', t.insertResult key value cas = .ok (t', true) := by
  rw [bwTree_insertAll_new kvs] at h
  have ht : BwTree.afterInserts kvs = t := RustResult.ok.inj h
  subst ht
  cases kvs with
  | nil =>
    exact ⟨_, bwTree_insertResult_inner (BwTree.new K V).mapping_table 3
      (InnerNode.new.insert KeyType.MINIMUM FIRST_LEAF_NODE_ID) key value cas rfl⟩
  | cons p rest =>
    obtain ⟨k0, v0⟩ := p
    exact ⟨_, bwTree_insertResult_delta
      (BwTree.afterInserts ((k0, v0) :: rest)).mapping_table 3
      (deltaOf ((k0, v0) :: rest)) key value cas rfl⟩

/-- Witness for C4: insert on a fresh tree with a failing CAS still returns
`true`. -/
theorem bwTree_insert_always_true_witness :
    ∃ t', (BwTree.new Nat Nat).insertResult 5 7 false = .ok (t', true) :=
  bwTree_insert_always_true [] (BwTree.new Nat Nat) 5 7 false rfl

/-- C9: on any tree state reached by a sequence of inserts that contains key
`k2`, performing `insert(k1, v1)` with `k1 ≠ k2` returns `true` and does not
change the result of `get(k2)`. -/
theorem bwTree_insert_noninterference {K V : Type} [KeyType K] (kvs : List (K × V))
    (k1 : K) (v1 : V) (k2 : K) (w : V) (hmem : (k2, w) ∈ kvs) (hne : k1 ≠ k2) :
    ∃ t t', BwTree.insertAll (BwTree.new K V) kvs = .ok t ∧
      t.insertResult k1 v1 true = .ok (t', true) ∧ t'.get k2 = t.get k2 := by
  cases kvs with
  | nil => exact absurd hmem (List.not_mem_nil _)
  | cons p rest =>
    obtain ⟨k0, v0⟩ := p
    have h1 : (1 : Nat) < MAPPING_TABLE_SIZE := by decide
    refine ⟨BwTree.afterInserts ((k0, v0) :: rest), _, bwTree_insertAll_new _,
      bwTree_insertResult_delta (BwTree.afterInserts ((k0, v0) :: rest)).mapping_table 3
        (deltaOf ((k0, v0) :: rest)) k1 v1 true rfl, ?_⟩
    rw [bwTree_get_afterInserts k0 v0 rest k2]
    have hget2 : (⟨1, updateTable (BwTree.afterInserts ((k0, v0) :: rest)).mapping_table 1
        (Node.Delta ((deltaOf ((k0, v0) :: rest)).insert k1 v1)), 3⟩ : BwTree K V).get k2 =
        .ok (getChain (DeltaRecord.Insert k1 v1 ::
          ((k0, v0) :: rest).reverse.map fun p => DeltaRecord.Insert p.1 p.2) k2) := by
      simp [BwTree.get, MappingTable.get, h1, updateTable, Node.get, DeltaNode.get,
        LinkedList.iter, DeltaNode.insert, LinkedList.push_front, deltaOf]
    rw [hget2, getChain_cons, if_neg (Ne.symm hne)]

/-- Witness for C9: after inserting (2, 10), inserting (3, 0) leaves get 2
unchanged. -/
theorem bwTree_insert_noninterference_witness :
    ∃ t t', BwTree.insertAll (BwTree.new Nat Nat) [(2, 10)] = .ok t ∧
      t.insertResult 3 0 true = .ok (t', true) ∧ t'.get 2 = t.get 2 :=
  bwTree_insert_noninterference [(2, 10)] 3 0 2 10 (by decide) (by decide)

/-- C10: on every state reachable from `new()` by a sequence of inserts, the
root slot holds the bootstrap Inner node until the first insert and a Delta
node carrying the inserts thereafter; it never holds a Leaf node, and
`BwTree::insert` never reaches a panic — in particular its `todo!()` Leaf arm
is unreachable. -/
theorem bwTree_root_state_machine {K V : Type} [KeyType K] (kvs : List (K × V))
    (t : BwTree K V) (h : BwTree.insertAll (BwTree.new K V) kvs = .ok t) :
    (kvs = [] → t.mapping_table t.root_id =
      some (Node.Inner (InnerNode.new.insert KeyType.MINIMUM FIRST_LEAF_NODE_ID))) ∧
    (kvs ≠ [] → t.mapping_table t.root_id = some (Node.Delta (deltaOf kvs))) ∧
    (∀ leaf, t.mapping_table t.root_id ≠ some (Node.Leaf leaf)) ∧
    (∀ key value cas, t.insertResult key value cas ≠ RustResult.panicked) := by
  rw [bwTree_insertAll_new kvs] at h
  have ht : BwTree.afterInserts kvs = t := RustResult.ok.inj h
  subst ht
  cases kvs with
  | nil =>
    refine ⟨fun _ => rfl, fun hne => absurd rfl hne, ?_, ?_⟩
    · intro leaf heq
      rw [show (BwTree.afterInserts ([] : List (K × V))).mapping_table
          (BwTree.afterInserts ([] : List (K × V))).root_id =
          some (Node.Inner (InnerNode.new.insert KeyType.MINIMUM FIRST_LEAF_NODE_ID))
          from rfl] at heq
      exact Node.noConfusion (Option.some.inj heq)
    · intro key value cas hc
      rw [show (BwTree.afterInserts ([] : List (K × V))).insertResult key value cas =
          BwTree.insertResult ⟨1, (BwTree.new K V).mapping_table, 3⟩ key value cas
          from rfl,
        bwTree_insertResult_inner (BwTree.new K V).mapping_table 3
          (InnerNode.new.insert KeyType.MINIMUM FIRST_LEAF_NODE_ID) key value cas rfl]
        at hc
      exact RustResult.noConfusion hc
  | cons p rest =>
    obtain ⟨k0, v0⟩ := p
    refine ⟨fun hnil => List.noConfusion hnil, fun _ => rfl, ?_, ?_⟩
    · intro leaf heq
      rw [show (BwTree.afterInserts ((k0, v0) :: rest)).mapping_table
          (BwTree.afterInserts ((k0, v0) :: rest)).root_id =
          some (Node.Delta (deltaOf ((k0, v0) :: rest))) from rfl] at heq
      exact Node.noConfusion (Option.some.inj heq)
    · intro key value cas hc
      rw [show (BwTree.afterInserts ((k0, v0) :: rest)).insertResult key value cas =
          BwTree.insertResult
            ⟨1, (BwTree.afterInserts ((k0, v0) :: rest)).mapping_table, 3⟩ key value cas
          from rfl,
        bwTree_insertResult_delta (BwTree.afterInserts ((k0, v0) :: rest)).mapping_table 3
          (deltaOf ((k0, v0) :: rest)) key value cas rfl] at hc
      exact RustResult.noConfusion hc

/-- Witness for C10: a fresh tree (empty insert sequence) resolves its root to
the bootstrap Inner node. -/
theorem bwTree_root_state_machine_witness :
    (BwTree.new Nat Nat).mapping_table (BwTree.new Nat Nat).root_id =
      some (Node.Inner (InnerNode.new.insert KeyType.MINIMUM FIRST_LEAF_NODE_ID)) :=
  (bwTree_root_state_machine [] (BwTree.new Nat Nat) rfl).1 rfl
